import Mathlib

/-!
Verification of the Stock_price_tracker repository core
(`src/tracker.py`, `src/main.py`) against its natural-language
specification.

The Python code is shallowly embedded: Python floats are modelled as
rationals (`ℚ`), file contents as `String` over explicit char lists,
fallible I/O (HTTP requests, cache-file reads and writes) as explicit
environment data passed to the embedded functions.  Each embedded
definition is translated from the source function it names.
-/

/-! ### Decimal strings: Python `float(str)` parsing and `str(float)` rendering

`tracker.py` stores the FX-rate cache as text (`Path(...).write_text(str(rate))`)
and reads it back with `float(txt)` after `.strip()`.  The helpers below embed
the decimal fragment of those conversions: `parseDecimal` accepts an optional
sign, integer digits, and an optional fractional part (the shape `str(float)`
produces for ordinary finite floats), and `ratToDecimalString` renders a
rational with a 20-digit fractional part, which parses back to the same value.
-/

/-- Numeric value of a decimal digit character. -/
def charVal (c : Char) : ℕ := c.toNat - '0'.toNat

/-- Character for a decimal digit. -/
def digitChar (d : ℕ) : Char := Char.ofNat (48 + d)

/-- Decimal digits of `m`, least-significant first; `fuel` bounds recursion. -/
def natDigitsAux : ℕ → ℕ → List Char
  | 0, _ => []
  | fuel + 1, m => if m = 0 then [] else digitChar (m % 10) :: natDigitsAux fuel (m / 10)

/-- Decimal digits of `m`, most-significant first; empty for `0`. -/
def natDigits (m : ℕ) : List Char := (natDigitsAux m m).reverse

/-- Decimal rendering of a natural number, `"0"` included. -/
def renderNat (m : ℕ) : List Char := if m = 0 then ['0'] else natDigits m

/-- Left-pad a digit list with `'0'` to length `p`. -/
def padZeros (p : ℕ) (l : List Char) : List Char := List.replicate (p - l.length) '0' ++ l

/-- Value of a most-significant-first digit list. -/
def natVal (l : List Char) : ℕ := l.foldl (fun a c => 10 * a + charVal c) 0

/-- Value of a least-significant-first digit list. -/
def valLSB (l : List Char) : ℕ := l.foldr (fun c a => charVal c + 10 * a) 0

/-- Parses an unsigned decimal string (digits, optional point, digits), as
Python `float` does on such inputs; `none` models a raised `ValueError`. -/
def parseDecimalAux (l : List Char) : Option ℚ :=
  let ip := l.takeWhile Char.isDigit
  let rest := l.dropWhile Char.isDigit
  match rest with
  | [] => if ip.isEmpty then none else some (natVal ip)
  | '.' :: t =>
    let fp := t.takeWhile Char.isDigit
    if (t.dropWhile Char.isDigit).isEmpty then
      if ip.isEmpty && fp.isEmpty then none
      else some ((natVal ip : ℚ) + (natVal fp : ℚ) / 10 ^ fp.length)
    else none
  | _ => none

/-- Embeds Python `float(s)` on plain signed decimal strings (the shape the
code writes to and expects in the rate-cache file); `none` models `ValueError`. -/
def parseDecimal (s : String) : Option ℚ :=
  match s.data with
  | [] => none
  | c :: t =>
    if c = '-' then (parseDecimalAux t).map (fun q => -q)
    else if c = '+' then parseDecimalAux t
    else parseDecimalAux (c :: t)

/-- Renders `q` in decimal with 20 fractional digits.  This embeds Python
`str(rate)` up to parse-back value: for every `q` whose denominator divides
`10 ^ 20` (every IEEE double of the magnitudes at play does), the rendered
string parses back to exactly `q`, which is the property the cache file
round-trip relies on. -/
def ratToDecimalString (q : ℚ) : String :=
  let a : ℕ := (q * 10 ^ 20).num.natAbs
  let sign : List Char := if q < 0 then ['-'] else []
  String.mk (sign ++ renderNat (a / 10 ^ 20) ++ '.' :: padZeros 20 (natDigits (a % 10 ^ 20)))

/-- Rationals exactly representable with 20 decimal fractional digits. -/
def decimalRepr (q : ℚ) : Prop := (q * 10 ^ 20).den = 1

/-- Whitespace characters stripped by Python `str.strip()`. -/
def isPySpace (c : Char) : Bool :=
  c = ' ' || c = '\t' || c = '\n' || c = '\r' || c = '\x0b' || c = '\x0c'

/-- Embeds Python `str.strip()`. -/
def pyStrip (s : String) : String :=
  String.mk (((s.data.dropWhile isPySpace).reverse.dropWhile isPySpace).reverse)

/-! ### Basic digit lemmas -/

theorem charVal_digitChar {d : ℕ} (h : d < 10) : charVal (digitChar d) = d := by
  interval_cases d <;> decide

theorem isDigit_digitChar {d : ℕ} (h : d < 10) : (digitChar d).isDigit = true := by
  interval_cases d <;> decide

theorem natDigitsAux_digits {fuel m : ℕ} (h : m ≤ fuel) :
    ∀ c ∈ natDigitsAux fuel m, c.isDigit = true := by
  induction fuel generalizing m with
  | zero => intro c hc; simp [natDigitsAux] at hc
  | succ fuel ih =>
    intro c hc
    by_cases hm : m = 0
    · simp [natDigitsAux, hm] at hc
    · rw [natDigitsAux, if_neg hm] at hc
      rcases List.mem_cons.mp hc with hc | hc
      · exact hc ▸ isDigit_digitChar (Nat.mod_lt _ (by norm_num))
      · exact ih (by omega : m / 10 ≤ fuel) c hc

theorem valLSB_natDigitsAux {fuel m : ℕ} (h : m ≤ fuel) :
    valLSB (natDigitsAux fuel m) = m := by
  induction fuel generalizing m with
  | zero => simp [natDigitsAux, valLSB]; omega
  | succ fuel ih =>
    by_cases hm : m = 0
    · simp [natDigitsAux, hm, valLSB]
    · rw [natDigitsAux, if_neg hm]
      have hd : m / 10 ≤ fuel := by omega
      simp only [valLSB, List.foldr_cons] at *
      rw [ih hd, charVal_digitChar (Nat.mod_lt _ (by norm_num))]
      omega

theorem natVal_append_singleton (l : List Char) (c : Char) :
    natVal (l ++ [c]) = 10 * natVal l + charVal c := by
  simp [natVal, List.foldl_append]

theorem natVal_reverse (l : List Char) : natVal l.reverse = valLSB l := by
  induction l with
  | nil => rfl
  | cons c t ih =>
    rw [List.reverse_cons, natVal_append_singleton, ih]
    simp only [valLSB, List.foldr_cons]
    omega

theorem natVal_natDigits (m : ℕ) : natVal (natDigits m) = m := by
  rw [natDigits, natVal_reverse, valLSB_natDigitsAux le_rfl]

theorem natVal_renderNat (m : ℕ) : natVal (renderNat m) = m := by
  by_cases hm : m = 0
  · simp [renderNat, hm, natVal, charVal]
  · rw [renderNat, if_neg hm, natVal_natDigits]

theorem natDigits_digits (m : ℕ) : ∀ c ∈ natDigits m, c.isDigit = true := by
  intro c hc
  rw [natDigits, List.mem_reverse] at hc
  exact natDigitsAux_digits le_rfl c hc

theorem renderNat_digits (m : ℕ) : ∀ c ∈ renderNat m, c.isDigit = true := by
  intro c hc
  by_cases hm : m = 0
  · simp [renderNat, hm] at hc; simp [hc]
  · rw [renderNat, if_neg hm] at hc; exact natDigits_digits m c hc

theorem renderNat_ne_nil (m : ℕ) : renderNat m ≠ [] := by
  by_cases hm : m = 0
  · simp [renderNat, hm]
  · rw [renderNat, if_neg hm, natDigits]
    simp only [ne_eq, List.reverse_eq_nil_iff]
    cases m with
    | zero => omega
    | succ k =>
      rw [natDigitsAux]
      simp

theorem natDigitsAux_length {fuel m k : ℕ} (hm : m < 10 ^ k) (hf : m ≤ fuel) :
    (natDigitsAux fuel m).length ≤ k := by
  induction fuel generalizing m k with
  | zero => simp [natDigitsAux]
  | succ fuel ih =>
    by_cases h0 : m = 0
    · simp [natDigitsAux, h0]
    · rw [natDigitsAux, if_neg h0, List.length_cons]
      have hk : k ≠ 0 := by
        rintro rfl; simp at hm; omega
      obtain ⟨k₁, rfl⟩ : ∃ k₁, k = k₁ + 1 := ⟨k - 1, by omega⟩
      have hdiv : m / 10 < 10 ^ k₁ := by
        rw [Nat.div_lt_iff_lt_mul (by norm_num)]
        calc m < 10 ^ (k₁ + 1) := hm
        _ = 10 ^ k₁ * 10 := by ring
      have : (natDigitsAux fuel (m / 10)).length ≤ k₁ := ih hdiv (by omega)
      omega

theorem natDigits_length {m k : ℕ} (hm : m < 10 ^ k) : (natDigits m).length ≤ k := by
  rw [natDigits, List.length_reverse]
  exact natDigitsAux_length hm le_rfl

theorem padZeros_length {p : ℕ} {l : List Char} (h : l.length ≤ p) :
    (padZeros p l).length = p := by
  simp [padZeros]; omega

theorem natVal_padZeros (p : ℕ) (l : List Char) : natVal (padZeros p l) = natVal l := by
  rw [padZeros]
  induction p - l.length with
  | zero => simp
  | succ n ih =>
    rw [List.replicate_succ, List.cons_append]
    simp only [natVal, List.foldl_cons] at *
    have : 10 * 0 + charVal '0' = 0 := by decide
    rw [this, ih]

theorem padZeros_digits {p : ℕ} {l : List Char} (h : ∀ c ∈ l, c.isDigit = true) :
    ∀ c ∈ padZeros p l, c.isDigit = true := by
  intro c hc
  rw [padZeros, List.mem_append] at hc
  rcases hc with hc | hc
  · rw [List.eq_of_mem_replicate hc]; decide
  · exact h c hc

/-! ### Round trip: rendered decimals parse back to the same value -/

theorem takeWhile_append_cons {p : Char → Bool} {l₁ l₂ : List Char} {x : Char}
    (h₁ : ∀ c ∈ l₁, p c = true) (hx : p x = false) :
    (l₁ ++ x :: l₂).takeWhile p = l₁ ∧ (l₁ ++ x :: l₂).dropWhile p = x :: l₂ := by
  induction l₁ with
  | nil => simp [List.takeWhile_cons, List.dropWhile_cons, hx]
  | cons a t ih =>
    have ha : p a = true := h₁ a (List.mem_cons_self a t)
    have ht := ih (fun c hc => h₁ c (List.mem_cons_of_mem a hc))
    simp [List.takeWhile_cons, List.dropWhile_cons, ha, ht.1, ht.2]

theorem takeWhile_eq_self_of_all {p : Char → Bool} {l : List Char}
    (h : ∀ c ∈ l, p c = true) :
    l.takeWhile p = l ∧ l.dropWhile p = [] := by
  induction l with
  | nil => simp
  | cons a t ih =>
    have ha : p a = true := h a (List.mem_cons_self a t)
    have ht := ih (fun c hc => h c (List.mem_cons_of_mem a hc))
    simp [List.takeWhile_cons, List.dropWhile_cons, ha, ht.1, ht.2]

theorem parseDecimalAux_eval {ip fp : List Char}
    (hip : ∀ c ∈ ip, c.isDigit = true) (hfp : ∀ c ∈ fp, c.isDigit = true)
    (hne : ip ≠ []) :
    parseDecimalAux (ip ++ '.' :: fp) =
      some ((natVal ip : ℚ) + (natVal fp : ℚ) / 10 ^ fp.length) := by
  have hdot : ('.' : Char).isDigit = false := by decide
  have htake := @takeWhile_append_cons Char.isDigit ip fp '.' hip hdot
  have hfp2 := takeWhile_eq_self_of_all hfp
  rw [parseDecimalAux]
  simp only [htake.1, htake.2, hfp2.1, hfp2.2, List.isEmpty_nil, List.isEmpty_eq_true]
  simp [hne]

theorem isDigit_ne_dash {c : Char} (h : c.isDigit = true) : ¬ c = '-' := by
  intro hc; subst hc; simp at h

theorem isDigit_ne_plus {c : Char} (h : c.isDigit = true) : ¬ c = '+' := by
  intro hc; subst hc; simp at h

theorem parseDecimal_neg_eval (l : List Char) :
    parseDecimal (String.mk ('-' :: l)) = (parseDecimalAux l).map (fun q => -q) := rfl

theorem parseDecimal_unsigned_eval {ip fp : List Char}
    (hip : ∀ c ∈ ip, c.isDigit = true) (hfp : ∀ c ∈ fp, c.isDigit = true)
    (hne : ip ≠ []) :
    parseDecimal (String.mk (ip ++ '.' :: fp)) =
      some ((natVal ip : ℚ) + (natVal fp : ℚ) / 10 ^ fp.length) := by
  obtain ⟨c, cs, rfl⟩ := List.exists_cons_of_ne_nil hne
  have hc : c.isDigit = true := hip c (List.mem_cons_self c cs)
  rw [parseDecimal]
  simp only [List.cons_append]
  rw [if_neg (isDigit_ne_dash hc), if_neg (isDigit_ne_plus hc), ← List.cons_append]
  exact parseDecimalAux_eval hip hfp hne

theorem unsigned_value_eq (a : ℕ) :
    ((natVal (renderNat (a / 10 ^ 20)) : ℚ) +
      (natVal (padZeros 20 (natDigits (a % 10 ^ 20))) : ℚ) /
        10 ^ (padZeros 20 (natDigits (a % 10 ^ 20))).length) = (a : ℚ) / 10 ^ 20 := by
  have hmod : a % 10 ^ 20 < 10 ^ 20 := Nat.mod_lt _ (by norm_num)
  have hlen : (padZeros 20 (natDigits (a % 10 ^ 20))).length = 20 :=
    padZeros_length (natDigits_length hmod)
  rw [hlen, natVal_renderNat, natVal_padZeros, natVal_natDigits]
  have hdm : (a / 10 ^ 20) * 10 ^ 20 + a % 10 ^ 20 = a := by
    rw [Nat.mul_comm]
    exact Nat.div_add_mod a (10 ^ 20)
  have : ((a / 10 ^ 20 : ℕ) : ℚ) * 10 ^ 20 + ((a % 10 ^ 20 : ℕ) : ℚ) = (a : ℚ) := by
    exact_mod_cast congrArg (Nat.cast : ℕ → ℚ) hdm
  field_simp
  linarith

theorem parseDecimal_ratToDecimalString {q : ℚ} (h : decimalRepr q) :
    parseDecimal (ratToDecimalString q) = some q := by
  have hq20 : (((q * 10 ^ 20).num : ℤ) : ℚ) = q * 10 ^ 20 := by
    rw [← Rat.den_eq_one_iff]
    exact h
  set n : ℤ := (q * 10 ^ 20).num with hn
  set a : ℕ := n.natAbs with ha
  have hipd := renderNat_digits (a / 10 ^ 20)
  have hfpd := padZeros_digits (p := 20) (natDigits_digits (a % 10 ^ 20))
  have hipne := renderNat_ne_nil (a / 10 ^ 20)
  have hq' : q = (n : ℚ) / 10 ^ 20 := by
    field_simp at hq20 ⊢
    linarith
  by_cases hq : q < 0
  · have hnneg : n < 0 := by
      rw [hn, Rat.num_neg]
      exact mul_neg_of_neg_of_pos hq (by positivity)
    have hna : ((a : ℕ) : ℚ) = -(n : ℚ) := by
      have h1 : ((a : ℤ) : ℚ) = -(n : ℚ) := by
        rw [ha, Int.ofNat_natAbs_of_nonpos (le_of_lt hnneg)]
        push_cast
        ring
      exact_mod_cast h1
    have hdata : ratToDecimalString q
        = String.mk ('-' :: (renderNat (a / 10 ^ 20) ++ '.' :: padZeros 20 (natDigits (a % 10 ^ 20)))) := by
      rw [ratToDecimalString]
      simp only [← hn, ← ha, if_pos hq, List.cons_append, List.nil_append, List.append_assoc]
    rw [hdata, parseDecimal_neg_eval, parseDecimalAux_eval hipd hfpd hipne, Option.map_some']
    congr 1
    rw [unsigned_value_eq, hq', hna]
    ring
  · have hnpos : 0 ≤ n := by
      rw [hn, Rat.num_nonneg]
      have : 0 ≤ q := not_lt.mp hq
      positivity
    have hna : ((a : ℕ) : ℚ) = (n : ℚ) := by
      have h1 : ((a : ℤ) : ℚ) = (n : ℚ) := by rw [ha, Int.natAbs_of_nonneg hnpos]
      exact_mod_cast h1
    have hdata : ratToDecimalString q
        = String.mk (renderNat (a / 10 ^ 20) ++ '.' :: padZeros 20 (natDigits (a % 10 ^ 20))) := by
      rw [ratToDecimalString]
      simp only [← hn, ← ha, if_neg hq, List.nil_append]
    rw [hdata, parseDecimal_unsigned_eval hipd hfpd hipne, unsigned_value_eq]
    congr 1
    rw [hq', hna]

/-! ### The FX-rate fetcher (`tracker.get_usd_to_npr_rate`)

The function issues up to three HTTP GETs and falls back to an on-disk cache
and then a hard-coded default.  Network and file-system behaviour is
modelled as an explicit `RateEnv`; the function returns the `(rate, source)`
pair together with the cache-file content after the call.
-/

/-- Value extracted from a provider's JSON body at the documented path, as the
Python code observes it: its truthiness (`if rate:`) and the result of
`float(rate)` (`none` models a raised exception). -/
structure JVal where
  truthy : Bool
  asFloat : Option ℚ
deriving DecidableEq

/-- Outcome of one provider attempt, up to the first point the code can
distinguish: `httpError` covers a network error, a non-2xx status
(`resp.raise_for_status()`) or an unparseable JSON body — everything that
raises before the field is extracted; `fieldValue v` is a parsed body whose
value at the documented path is `v` (`none` when the field is missing, so
that `data.get(...).get(...)` yields `None`). -/
inductive FetchOutcome where
  | httpError : FetchOutcome
  | fieldValue : Option JVal → FetchOutcome
deriving DecidableEq

/-- Environment of one `get_usd_to_npr_rate` call: the three provider
outcomes in cascade order, whether a cache-file write would succeed, whether
a cache-file read would succeed, and the current cache-file content
(`none` means the file is absent). -/
structure RateEnv where
  provider1 : FetchOutcome
  provider2 : FetchOutcome
  provider3 : FetchOutcome
  writeOk : Bool
  readOk : Bool
  cache : Option String
deriving DecidableEq

/-- Return value of `get_usd_to_npr_rate`: the `(rate, source)` tuple. -/
structure RateResult where
  value : ℚ
  source : String
deriving DecidableEq

/-- Rate accepted from one provider attempt, following the Python control
flow: an exception anywhere in the `try` block (`httpError`, or `float(rate)`
raising) falls through; a missing field leaves `rate = None`; `if rate:`
skips every falsy value; and any value passing both the truthiness test and
`float()` is accepted — the code performs no positivity or finiteness check. -/
def providerRate : FetchOutcome → Option ℚ
  | .httpError => none
  | .fieldValue none => none
  | .fieldValue (some v) => if v.truthy then v.asFloat else none

/-- Embeds the `return rate, "live"` path: the rate is cached best-effort
(`Path(cache_file).write_text(str(rate))` inside its own `try`, a failed
write being swallowed) and `(rate, "live")` is returned. -/
def liveReturn (r : ℚ) (env : RateEnv) : RateResult × Option String :=
  (⟨r, "live"⟩, if env.writeOk then some (ratToDecimalString r) else env.cache)

/-- Embeds `tracker.get_usd_to_npr_rate`: try the three providers in order,
returning `(rate, "live")` on the first accepted value; on exhaustion read
the cache file (`float(txt)` after `.strip()`, any failure swallowed) and
return `(cached, "cache")`; finally fall back to `(140.0, "default")`.
The second component is the cache-file content after the call. -/
def get_usd_to_npr_rate (env : RateEnv) : RateResult × Option String :=
  match providerRate env.provider1 with
  | some r => liveReturn r env
  | none =>
  match providerRate env.provider2 with
  | some r => liveReturn r env
  | none =>
  match providerRate env.provider3 with
  | some r => liveReturn r env
  | none =>
  match env.cache with
  | some s =>
    if env.readOk then
      if pyStrip s ≠ "" then
        match parseDecimal (pyStrip s) with
        | some r => (⟨r, "cache"⟩, env.cache)
        | none => (⟨140, "default"⟩, env.cache)
      else (⟨140, "default"⟩, env.cache)
    else (⟨140, "default"⟩, env.cache)
  | none => (⟨140, "default"⟩, env.cache)

/-! ### Case analysis of the rate cascade -/

/-- All three providers failed the acceptance gate. -/
def allProvidersFail (env : RateEnv) : Prop :=
  providerRate env.provider1 = none ∧ providerRate env.provider2 = none ∧
    providerRate env.provider3 = none

/-- No usable cache: the file is absent, or unreadable, or its stripped
content is empty or does not parse as a float. -/
def cacheUnusable (env : RateEnv) : Prop :=
  env.cache = none ∨ env.readOk = false ∨
    ∃ s, env.cache = some s ∧ (pyStrip s = "" ∨ parseDecimal (pyStrip s) = none)

/-- Every call lands in exactly one of the three branches of the source:
a live provider, a parsed cache read, or the hard-coded default. -/
theorem get_shape (env : RateEnv) :
    (∃ r, get_usd_to_npr_rate env = liveReturn r env ∧
      (providerRate env.provider1 = some r ∨ providerRate env.provider2 = some r ∨
        providerRate env.provider3 = some r)) ∨
    (allProvidersFail env ∧
      ((∃ s r, env.cache = some s ∧ env.readOk = true ∧ pyStrip s ≠ "" ∧
          parseDecimal (pyStrip s) = some r ∧
          get_usd_to_npr_rate env = (⟨r, "cache"⟩, env.cache)) ∨
        (cacheUnusable env ∧
          get_usd_to_npr_rate env = (⟨140, "default"⟩, env.cache)))) := by
  cases hp1 : providerRate env.provider1 with
  | some r => exact Or.inl ⟨r, by simp [get_usd_to_npr_rate, hp1], Or.inl rfl⟩
  | none =>
  cases hp2 : providerRate env.provider2 with
  | some r => exact Or.inl ⟨r, by simp [get_usd_to_npr_rate, hp1, hp2], Or.inr (Or.inl rfl)⟩
  | none =>
  cases hp3 : providerRate env.provider3 with
  | some r =>
    exact Or.inl ⟨r, by simp [get_usd_to_npr_rate, hp1, hp2, hp3], Or.inr (Or.inr rfl)⟩
  | none =>
  refine Or.inr ⟨⟨hp1, hp2, hp3⟩, ?_⟩
  cases hcc : env.cache with
  | none =>
    exact Or.inr ⟨Or.inl hcc, by simp [get_usd_to_npr_rate, hp1, hp2, hp3, hcc]⟩
  | some s =>
    by_cases hro : env.readOk = true
    · by_cases hst : pyStrip s = ""
      · exact Or.inr ⟨Or.inr (Or.inr ⟨s, hcc, Or.inl hst⟩),
          by simp [get_usd_to_npr_rate, hp1, hp2, hp3, hcc, hro, hst]⟩
      · cases hpd : parseDecimal (pyStrip s) with
        | some r =>
          exact Or.inl ⟨s, r, rfl, hro, hst, hpd,
            by simp [get_usd_to_npr_rate, hp1, hp2, hp3, hcc, hro, hst, hpd]⟩
        | none =>
          exact Or.inr ⟨Or.inr (Or.inr ⟨s, hcc, Or.inr hpd⟩),
            by simp [get_usd_to_npr_rate, hp1, hp2, hp3, hcc, hro, hst, hpd]⟩
    · exact Or.inr ⟨Or.inr (Or.inl (by simpa using hro)),
        by simp [get_usd_to_npr_rate, hp1, hp2, hp3, hcc, hro]⟩

/-! ### Claim C2 -/

/-- C2 counterexample.  A provider whose documented JSON path holds the
negative number `-5` is NOT considered failed: the cascade stops there and
returns `(-5.0, "live")`, because the code's gate is `if rate:` plus
`float(rate)` — truthiness, not positivity.  The claim says such a provider
is considered failed and the cascade advances. -/
theorem provider_negative_accepted_cex :
    providerRate (.fieldValue (some ⟨true, some (-5 : ℚ)⟩)) = some (-5) ∧
    (get_usd_to_npr_rate ⟨.fieldValue (some ⟨true, some (-5 : ℚ)⟩), .httpError, .httpError,
        false, true, none⟩).1 = ⟨-5, "live"⟩ ∧
    ¬ (0 : ℚ) < -5 := by
  refine ⟨rfl, rfl, by norm_num⟩

/-- C2 (amended).  A provider is treated as successful exactly when the HTTP
request and JSON parse succeed, the value at the documented path is present
and truthy, and `float()` converts it — so network errors, non-2xx statuses,
missing fields, non-convertible values and zero all fail, but negative (and
non-finite) numeric values are accepted.  On failure the cascade advances to
the next provider: the call behaves as if the provider list were shifted up
by one with a failing provider appended. -/
theorem provider_gate_and_cascade (o : FetchOutcome) (r : ℚ) :
    (providerRate o = some r ↔
      ∃ v : JVal, o = .fieldValue (some v) ∧ v.truthy = true ∧ v.asFloat = some r) ∧
    (providerRate o = none → ∀ env : RateEnv, env.provider1 = o →
      get_usd_to_npr_rate env =
        get_usd_to_npr_rate ⟨env.provider2, env.provider3, .httpError,
          env.writeOk, env.readOk, env.cache⟩) := by
  constructor
  · cases o with
    | httpError => simp [providerRate]
    | fieldValue ov =>
      cases ov with
      | none => simp [providerRate]
      | some v =>
        by_cases ht : v.truthy = true
        · simp only [providerRate, ht, if_true]
          constructor
          · intro h; exact ⟨v, rfl, ht, h⟩
          · rintro ⟨v₁, hv, ht₁, hf⟩
            obtain rfl : v = v₁ := by
              injection hv with hv₂
              exact Option.some.inj hv₂
            exact hf
        · simp only [providerRate, if_neg ht]
          constructor
          · intro h; exact absurd h (by simp)
          · rintro ⟨v₁, hv, ht₁, hf⟩
            obtain rfl : v = v₁ := by
              injection hv with hv₂
              exact Option.some.inj hv₂
            exact absurd ht₁ ht
  · intro hnone env hp1
    subst hp1
    cases h2 : providerRate env.provider2 with
    | some r₂ => simp [get_usd_to_npr_rate, hnone, h2, liveReturn]
    | none =>
      cases h3 : providerRate env.provider3 with
      | some r₃ =>
        simp [get_usd_to_npr_rate, hnone, h2, h3, liveReturn,
          show providerRate FetchOutcome.httpError = none from rfl]
      | none =>
        simp [get_usd_to_npr_rate, hnone, h2, h3,
          show providerRate FetchOutcome.httpError = none from rfl]

/-- Witness for `provider_gate_and_cascade`: with the first provider failing
and the second succeeding, the call equals the call on the shifted cascade. -/
theorem provider_gate_and_cascade_witness :
    get_usd_to_npr_rate ⟨.httpError, .fieldValue (some ⟨true, some (7 : ℚ)⟩), .httpError,
        false, true, none⟩ =
      get_usd_to_npr_rate ⟨.fieldValue (some ⟨true, some (7 : ℚ)⟩), .httpError, .httpError,
        false, true, none⟩ :=
  (provider_gate_and_cascade .httpError 0).2 rfl _ rfl

/-! ### Claim C1 -/

/-- C1 counterexample.  The claim asserts the returned rate is strictly
positive in every outcome, but a provider response carrying the negative
number `-3` at the documented path is accepted and returned as the rate:
the cascade ends with `(-3.0, "live")` while `-3 ≤ 0`.  (The cache-read
branch is equally unvalidated: `float(txt)` of a cached `"-3"` would be
returned as-is.) -/
theorem rate_value_nonpositive_cex :
    (get_usd_to_npr_rate ⟨.httpError, .httpError, .fieldValue (some ⟨true, some (-3 : ℚ)⟩),
        false, true, none⟩).1.value = -3 ∧
    ¬ (0 : ℚ) < (get_usd_to_npr_rate ⟨.httpError, .httpError,
        .fieldValue (some ⟨true, some (-3 : ℚ)⟩), false, true, none⟩).1.value := by
  constructor
  · rfl
  · intro h
    have h3 : (get_usd_to_npr_rate ⟨.httpError, .httpError,
        .fieldValue (some ⟨true, some (-3 : ℚ)⟩), false, true, none⟩).1.value = -3 := rfl
    rw [h3] at h
    norm_num at h

/-- C1 (amended).  The default outcome returns the positive constant `140.0`,
but the live and cache outcomes return whatever value the provider or cache
file supplied, with no positivity or finiteness check.  The returned rate is
therefore strictly positive provided every value the gate accepts — from any
of the three providers or from the parsed cache file — is strictly positive. -/
theorem rate_value_positive_of_inputs_positive (env : RateEnv)
    (h1 : ∀ r, providerRate env.provider1 = some r → 0 < r)
    (h2 : ∀ r, providerRate env.provider2 = some r → 0 < r)
    (h3 : ∀ r, providerRate env.provider3 = some r → 0 < r)
    (hc : ∀ s r, env.cache = some s → parseDecimal (pyStrip s) = some r → 0 < r) :
    0 < (get_usd_to_npr_rate env).1.value := by
  rcases get_shape env with ⟨r, heq, hor⟩ | ⟨hall, ⟨s, r, hs, hro, hne, hp, heq⟩ | ⟨hcu, heq⟩⟩
  · rw [heq]
    rcases hor with h | h | h
    · exact h1 r h
    · exact h2 r h
    · exact h3 r h
  · rw [heq]
    exact hc s r hs hp
  · rw [heq]
    norm_num

/-- Witness for `rate_value_positive_of_inputs_positive` at a call whose
first provider supplies `132.5` and whose cache file is absent. -/
theorem rate_value_positive_witness :
    0 < (get_usd_to_npr_rate ⟨.fieldValue (some ⟨true, some (132.5 : ℚ)⟩), .httpError,
        .httpError, true, true, none⟩).1.value := by
  apply rate_value_positive_of_inputs_positive
  · intro r hr
    have hr₂ : some (132.5 : ℚ) = some r := hr
    obtain rfl := Option.some.inj hr₂
    norm_num
  · intro r hr
    exact Option.noConfusion hr
  · intro r hr
    exact Option.noConfusion hr
  · intro s r hs _
    exact Option.noConfusion hs

/-! ### Claim C3 -/

/-- C3 counterexample.  With all three providers failing and a readable,
non-empty cache file whose content `"abc"` does not parse as a float, the
claim demands the parsed cache value with source `cache`, and allows
`default` only when no cache was readable; the code instead swallows the
`float("abc")` `ValueError` and returns `(140.0, "default")`. -/
theorem cache_unparseable_default_cex :
    (⟨.httpError, .httpError, .httpError, true, true, some "abc"⟩ : RateEnv).cache
        = some "abc" ∧
    (⟨.httpError, .httpError, .httpError, true, true, some "abc"⟩ : RateEnv).readOk = true ∧
    pyStrip "abc" ≠ "" ∧
    (get_usd_to_npr_rate ⟨.httpError, .httpError, .httpError, true, true, some "abc"⟩).1
        = ⟨140, "default"⟩ := by
  refine ⟨rfl, rfl, by decide, rfl⟩

/-- C3 (amended).  The function is total and the source tag is one of
`live`, `cache`, `default`; `live` occurs only when some provider was
accepted this call.  When all providers fail, the call returns the parsed
cache value with source `cache` provided the cache file exists, is readable,
and its stripped content is non-empty and parses as a float; in every other
exhausted case — file absent, unreadable, stripped-empty, or unparseable —
it returns exactly `(140.0, "default")`, and `default` is returned only in
those cases. -/
theorem rate_total_fallback (env : RateEnv) :
    (get_usd_to_npr_rate env).1.source ∈ (["live", "cache", "default"] : List String) ∧
    ((get_usd_to_npr_rate env).1.source = "live" →
      ∃ r, providerRate env.provider1 = some r ∨ providerRate env.provider2 = some r ∨
        providerRate env.provider3 = some r) ∧
    (allProvidersFail env → ∀ s r, env.cache = some s → env.readOk = true →
      pyStrip s ≠ "" → parseDecimal (pyStrip s) = some r →
      (get_usd_to_npr_rate env).1 = ⟨r, "cache"⟩) ∧
    (allProvidersFail env → cacheUnusable env →
      (get_usd_to_npr_rate env).1 = ⟨140, "default"⟩) ∧
    ((get_usd_to_npr_rate env).1.source = "default" →
      allProvidersFail env ∧ cacheUnusable env) := by
  rcases get_shape env with ⟨r, heq, hor⟩ | ⟨hall, ⟨s, r, hs, hro, hne, hp, heq⟩ | ⟨hcu, heq⟩⟩
  · refine ⟨by rw [heq]; simp [liveReturn], fun _ => ⟨r, hor⟩, ?_, ?_, ?_⟩
    · intro hall
      rcases hor with h | h | h
      · rw [hall.1] at h; exact Option.noConfusion h
      · rw [hall.2.1] at h; exact Option.noConfusion h
      · rw [hall.2.2] at h; exact Option.noConfusion h
    · intro hall
      rcases hor with h | h | h
      · rw [hall.1] at h; exact Option.noConfusion h
      · rw [hall.2.1] at h; exact Option.noConfusion h
      · rw [hall.2.2] at h; exact Option.noConfusion h
    · rw [heq]
      intro hdef
      exact absurd hdef (by simp [liveReturn])
  · refine ⟨by rw [heq]; simp, ?_, ?_, ?_, ?_⟩
    · rw [heq]
      intro hlive
      exact absurd hlive (by simp)
    · intro _ s₁ r₁ hs₁ _ _ hp₁
      rw [hs] at hs₁
      obtain rfl := Option.some.inj hs₁
      rw [hp] at hp₁
      obtain rfl := Option.some.inj hp₁
      rw [heq]
    · intro _ hcu
      rcases hcu with hcn | hrf | ⟨s₁, hs₁, hbad⟩
      · rw [hs] at hcn; exact Option.noConfusion hcn
      · rw [hro] at hrf; exact Bool.noConfusion hrf
      · rw [hs] at hs₁
        obtain rfl := Option.some.inj hs₁
        rcases hbad with hbad | hbad
        · exact absurd hbad hne
        · rw [hp] at hbad; exact Option.noConfusion hbad
    · rw [heq]
      intro hdef
      exact absurd hdef (by simp)
  · refine ⟨by rw [heq]; simp, ?_, ?_, fun _ _ => by rw [heq], fun _ => ⟨hall, hcu⟩⟩
    · rw [heq]
      intro hlive
      exact absurd hlive (by simp)
    · intro _ s r hs hro hne hp
      rcases hcu with hcn | hrf | ⟨s₁, hs₁, hbad⟩
      · rw [hs] at hcn; exact Option.noConfusion hcn
      · rw [hro] at hrf; exact Bool.noConfusion hrf
      · rw [hs] at hs₁
        obtain rfl := Option.some.inj hs₁
        rcases hbad with hbad | hbad
        · exact absurd hbad hne
        · rw [hp] at hbad; exact Option.noConfusion hbad

/-- Witness for `rate_total_fallback`: all providers fail and the cache file
holds `"129.25"`, so the call returns `(129.25, "cache")`. -/
theorem rate_total_fallback_witness :
    (get_usd_to_npr_rate ⟨.httpError, .httpError, .httpError, true, true,
        some "129.25"⟩).1 = ⟨517/4, "cache"⟩ := by
  have hps : pyStrip "129.25" = "129.25" := by decide
  have hv1 : natVal ['1', '2', '9'] = 129 := by decide
  have hv2 : natVal ['2', '5'] = 25 := by decide
  have hp0 : parseDecimal "129.25"
      = some ((natVal ['1', '2', '9'] : ℚ) + (natVal ['2', '5'] : ℚ) / 10 ^ 2) := rfl
  have hp : parseDecimal (pyStrip "129.25") = some (517/4 : ℚ) := by
    rw [hps, hp0, hv1, hv2]
    norm_num
  exact (rate_total_fallback
      ⟨.httpError, .httpError, .httpError, true, true, some "129.25"⟩).2.2.1
    ⟨rfl, rfl, rfl⟩ "129.25" (517/4) rfl rfl (by decide) hp

/-! ### Claim C4 -/

/-- C4 counterexample.  The cache write sits in its own `try`/`except` and a
failed write is swallowed: here the first provider succeeds with `5`, the
call returns source `live`, yet the cache file is still absent afterwards —
so a `live` return does not guarantee a cache write, and the written-back
contents cannot be re-parsed as the claim demands. -/
theorem live_without_write_cex :
    (get_usd_to_npr_rate ⟨.fieldValue (some ⟨true, some (5 : ℚ)⟩), .httpError, .httpError,
        false, true, none⟩).1.source = "live" ∧
    (get_usd_to_npr_rate ⟨.fieldValue (some ⟨true, some (5 : ℚ)⟩), .httpError, .httpError,
        false, true, none⟩).2 = none :=
  ⟨rfl, rfl⟩

/-- C4 (amended).  Calls returning `cache` or `default` leave the cache file
unchanged, and so does a `live` call whose (swallowed, best-effort) write
fails.  A `live` call whose write succeeds stores the decimal rendering of
the returned value, and — whenever that value has a finite 20-digit decimal
representation, as every IEEE double in range does — the stored contents
parse back to exactly the returned value. -/
theorem cache_write_frame (env : RateEnv) :
    ((get_usd_to_npr_rate env).1.source ≠ "live" →
      (get_usd_to_npr_rate env).2 = env.cache) ∧
    ((get_usd_to_npr_rate env).1.source = "live" → env.writeOk = false →
      (get_usd_to_npr_rate env).2 = env.cache) ∧
    ((get_usd_to_npr_rate env).1.source = "live" → env.writeOk = true →
      (get_usd_to_npr_rate env).2
          = some (ratToDecimalString (get_usd_to_npr_rate env).1.value) ∧
      (decimalRepr (get_usd_to_npr_rate env).1.value →
        ∃ s, (get_usd_to_npr_rate env).2 = some s ∧
          parseDecimal s = some (get_usd_to_npr_rate env).1.value)) := by
  rcases get_shape env with ⟨r, heq, hor⟩ | ⟨hall, ⟨s, r, hs, hro, hne, hp, heq⟩ | ⟨hcu, heq⟩⟩
  · rw [heq]
    refine ⟨?_, ?_, ?_⟩
    · intro hne₁
      exact absurd rfl hne₁
    · intro _ hw
      simp [liveReturn, hw]
    · intro _ hw
      constructor
      · simp [liveReturn, hw]
      · intro hd
        exact ⟨ratToDecimalString r, by simp [liveReturn, hw],
          parseDecimal_ratToDecimalString hd⟩
  · rw [heq]
    exact ⟨fun _ => rfl, fun hlive => absurd hlive (by simp),
      fun hlive => absurd hlive (by simp)⟩
  · rw [heq]
    exact ⟨fun _ => rfl, fun hlive => absurd hlive (by simp),
      fun hlive => absurd hlive (by simp)⟩

/-- Witness for `cache_write_frame`: a successful first provider gives
`132.5`, the write succeeds, and the stored text parses back to `132.5`. -/
theorem cache_write_frame_witness :
    ∃ s, (get_usd_to_npr_rate ⟨.fieldValue (some ⟨true, some (132.5 : ℚ)⟩), .httpError,
        .httpError, true, true, none⟩).2 = some s ∧
      parseDecimal s = some (get_usd_to_npr_rate ⟨.fieldValue (some ⟨true, some (132.5 : ℚ)⟩),
        .httpError, .httpError, true, true, none⟩).1.value := by
  have hd : decimalRepr (132.5 : ℚ) := by
    have h20 : (132.5 : ℚ) * 10 ^ 20 = ((13250000000000000000000 : ℤ) : ℚ) := by norm_num
    rw [decimalRepr, h20, Rat.den_intCast]
  exact ((cache_write_frame ⟨.fieldValue (some ⟨true, some (132.5 : ℚ)⟩), .httpError,
      .httpError, true, true, none⟩).2.2 rfl rfl).2 hd

/-! ### History fetching (`tracker.fetch_stock_data`) and plotting
(`tracker.plot_stock_data`)

The market-data provider (`yfinance`) and the chart toolkit are external
collaborators: the provider's reply enters as an explicit argument, and of
the chart only the numeric series handed to it are modelled.
-/

/-- Date-indexed frame of daily rows as `plot_stock_data` consumes it:
`dates` is the ascending index and `close` the `Close` column in USD. -/
structure HistoryFrame where
  dates : List ℕ
  close : List ℚ
deriving DecidableEq

/-- Embeds pandas `DataFrame.empty`: the frame has no rows. -/
def HistoryFrame.isEmpty (f : HistoryFrame) : Bool := f.close.isEmpty

/-- Errors raised by `fetch_stock_data`, both `ValueError` in the source:
`invalidSymbol` is `"Empty symbol provided"`, `noData` is
`"No data returned for symbol: ..."`. -/
inductive FetchErr where
  | invalidSymbol : FetchErr
  | noData : FetchErr
deriving DecidableEq

/-- Embeds `tracker.fetch_stock_data`.  `provider` is the reply of the
external market-data call `yf.Ticker(symbol).history(period=period)`
(`none` models a `None` return).  The boolean records whether that network
call was issued.  The best-effort CSV snapshot write (failures swallowed,
result unaffected) is not modelled. -/
def fetch_stock_data (symbol : String) (provider : Option HistoryFrame) :
    Except FetchErr HistoryFrame × Bool :=
  if symbol = "" then (.error .invalidSymbol, false)
  else
    match provider with
    | none => (.error .noData, true)
    | some data => if data.isEmpty then (.error .noData, true) else (.ok data, true)

/-- Embeds `close_npr = data["Close"] * rate`: scalar multiplication of the
close column. -/
def close_npr (data : HistoryFrame) (rate : ℚ) : List ℚ :=
  data.close.map (fun c => c * rate)

/-- Embeds `close_npr.rolling(window=7, min_periods=1).mean()`: at index `i`
the mean of the trailing window of the last `min 7 (i+1)` points. -/
def rollingMean7 (xs : List ℚ) : List ℚ :=
  (List.range xs.length).map (fun i =>
    let win := (xs.take (i + 1)).drop (i + 1 - 7)
    win.sum / (win.length : ℚ))

/-- Numeric content of a successful `plot_stock_data` call: the returned
rate and source, and the x/y series handed to the chart toolkit. -/
structure PlotResult where
  rate : ℚ
  source : String
  dates : List ℕ
  series : List ℚ
  ma : List ℚ
deriving DecidableEq

/-- Side effects of a `plot_stock_data` call: whether `get_usd_to_npr_rate`
ran (it performs all rate-provider HTTP and cache-file I/O) and the
cache-file content afterwards. -/
structure PlotEffects where
  rateFetched : Bool
  cacheAfter : Option String
deriving DecidableEq

/-- Embeds `tracker.plot_stock_data`: reject a `None` or empty frame with
`ValueError("No data to plot")` before anything else; otherwise fetch the
FX rate, convert the close column, and plot the converted series and its
7-point moving average against the frame's date index. -/
def plot_stock_data (data : Option HistoryFrame) (_symbol : String) (env : RateEnv) :
    Except String PlotResult × PlotEffects :=
  match data with
  | none => (.error "No data to plot", ⟨false, env.cache⟩)
  | some d =>
    if d.isEmpty then (.error "No data to plot", ⟨false, env.cache⟩)
    else
      let out := get_usd_to_npr_rate env
      let series := close_npr d out.1.value
      (.ok ⟨out.1.value, out.1.source, d.dates, series, rollingMean7 series⟩,
        ⟨true, out.2⟩)

/-! ### Claim C7 -/

/-- C7 (confirmed).  For the empty symbol string, `fetch_stock_data` raises
`ValueError("Empty symbol provided")` — the `invalidSymbol` error — before
the history provider is consulted, whatever that provider would have
returned: the network-call flag is `false`. -/
theorem empty_symbol_invalid_no_network (provider : Option HistoryFrame) :
    fetch_stock_data "" provider = (.error .invalidSymbol, false) := rfl

/-! ### Claim C10 -/

/-- C10 (confirmed).  When the supplied frame is `None` or empty,
`plot_stock_data` raises `ValueError("No data to plot")` immediately:
`get_usd_to_npr_rate` never runs, so no rate-provider HTTP request and no
cache-file read or write occurs, and the cache file is unchanged. -/
theorem plot_rejects_empty_before_fetch (sym : String) (env : RateEnv) :
    plot_stock_data none sym env = (.error "No data to plot", ⟨false, env.cache⟩) ∧
    ∀ d : HistoryFrame, d.isEmpty = true →
      plot_stock_data (some d) sym env = (.error "No data to plot", ⟨false, env.cache⟩) := by
  refine ⟨rfl, ?_⟩
  intro d hd
  simp [plot_stock_data, hd]

/-- Witness for `plot_rejects_empty_before_fetch` on an empty frame. -/
theorem plot_rejects_empty_witness :
    plot_stock_data (some ⟨[], []⟩) "AAPL"
        ⟨.httpError, .httpError, .httpError, true, true, none⟩
      = (.error "No data to plot", ⟨false, none⟩) :=
  (plot_rejects_empty_before_fetch "AAPL"
    ⟨.httpError, .httpError, .httpError, true, true, none⟩).2 ⟨[], []⟩ rfl

/-! ### Claim C5 -/

/-- C5 (confirmed).  For every rate outcome and non-empty well-formed frame,
the converted series `plot_stock_data` hands to the chart is
`data["Close"] * rate`: it has the same length as the frame, is plotted
against the frame's own date index (so dates and their order are preserved),
and its `i`-th value is exactly the `i`-th close times the returned rate —
exact rational equality, hence well within the claimed `1e-9` relative
tolerance. -/
theorem converted_series_pointwise (d : HistoryFrame) (sym : String) (env : RateEnv)
    (hne : d.isEmpty = false) (hwf : d.dates.length = d.close.length) :
    ∃ rate src, (plot_stock_data (some d) sym env).1
        = .ok ⟨rate, src, d.dates, close_npr d rate, rollingMean7 (close_npr d rate)⟩ ∧
      rate = (get_usd_to_npr_rate env).1.value ∧
      (close_npr d rate).length = d.close.length ∧
      (close_npr d rate).length = d.dates.length ∧
      ∀ i (h1 : i < (close_npr d rate).length) (h2 : i < d.close.length),
        (close_npr d rate).get ⟨i, h1⟩ = d.close.get ⟨i, h2⟩ * rate := by
  refine ⟨(get_usd_to_npr_rate env).1.value, (get_usd_to_npr_rate env).1.source,
    ?_, rfl, by simp [close_npr], by simp [close_npr, hwf], ?_⟩
  · simp [plot_stock_data, hne]
  · intro i h1 h2
    simp [close_npr, List.get_eq_getElem]

/-- Witness for `converted_series_pointwise` on a three-row frame with a
live rate of `130`. -/
theorem converted_series_pointwise_witness :
    ∃ rate src,
      (plot_stock_data (some ⟨[0, 1, 2], [100, 101, 99]⟩) "AAPL"
          ⟨.fieldValue (some ⟨true, some (130 : ℚ)⟩), .httpError, .httpError,
            false, true, none⟩).1
        = .ok ⟨rate, src, [0, 1, 2], close_npr ⟨[0, 1, 2], [100, 101, 99]⟩ rate,
            rollingMean7 (close_npr ⟨[0, 1, 2], [100, 101, 99]⟩ rate)⟩ ∧
      rate = (get_usd_to_npr_rate ⟨.fieldValue (some ⟨true, some (130 : ℚ)⟩), .httpError,
          .httpError, false, true, none⟩).1.value ∧
      (close_npr ⟨[0, 1, 2], [100, 101, 99]⟩ rate).length
          = ([100, 101, 99] : List ℚ).length ∧
      (close_npr ⟨[0, 1, 2], [100, 101, 99]⟩ rate).length = ([0, 1, 2] : List ℕ).length ∧
      ∀ i (h1 : i < (close_npr ⟨[0, 1, 2], [100, 101, 99]⟩ rate).length)
          (h2 : i < ([100, 101, 99] : List ℚ).length),
        (close_npr ⟨[0, 1, 2], [100, 101, 99]⟩ rate).get ⟨i, h1⟩
          = ([100, 101, 99] : List ℚ).get ⟨i, h2⟩ * rate :=
  converted_series_pointwise ⟨[0, 1, 2], [100, 101, 99]⟩ "AAPL"
    ⟨.fieldValue (some ⟨true, some (130 : ℚ)⟩), .httpError, .httpError, false, true, none⟩
    rfl rfl

/-! ### Claim C6 -/

/-- C6 (confirmed).  The moving average `plot_stock_data` plots is the
trailing 7-point simple moving average with `min_periods=1` graceful start:
it has one entry per point, at index `i < 6` it equals the mean of points
`0..i`, and at index `i ≥ 6` it equals the mean of points `i-6..i`. -/
theorem moving_average_windows (xs : List ℚ) :
    (rollingMean7 xs).length = xs.length ∧
    ∀ i (h : i < (rollingMean7 xs).length),
      (i < 6 →
        (rollingMean7 xs).get ⟨i, h⟩ = (xs.take (i + 1)).sum / ((i + 1 : ℕ) : ℚ)) ∧
      (6 ≤ i →
        (rollingMean7 xs).get ⟨i, h⟩ = ((xs.drop (i - 6)).take 7).sum / 7) := by
  have hlen : (rollingMean7 xs).length = xs.length := by simp [rollingMean7]
  refine ⟨hlen, ?_⟩
  intro i h
  have hxi : i < xs.length := hlen ▸ h
  have hget : (rollingMean7 xs).get ⟨i, h⟩
      = ((xs.take (i + 1)).drop (i + 1 - 7)).sum /
        (((xs.take (i + 1)).drop (i + 1 - 7)).length : ℚ) := by
    simp [rollingMean7, List.get_eq_getElem]
  constructor
  · intro h6
    have h7 : i + 1 - 7 = 0 := by omega
    have hlt : (xs.take (i + 1)).length = i + 1 := by
      rw [List.length_take]
      omega
    rw [hget, h7, List.drop_zero, hlt]
  · intro h6
    have h7 : i + 1 - 7 = i - 6 := by omega
    have hsplit : (xs.take (i + 1)).drop (i - 6) = (xs.drop (i - 6)).take (i + 1 - (i - 6)) :=
      List.drop_take (i + 1) (i - 6) xs
    have h7b : i + 1 - (i - 6) = 7 := by omega
    have hlen7 : ((xs.drop (i - 6)).take 7).length = 7 := by
      rw [List.length_take, List.length_drop]
      omega
    rw [hget, h7, hsplit, h7b, hlen7]
    norm_num

/-- Witness for `moving_average_windows`: the short-window start on the S8
series `[13000, 13130, 12870]` and a full 7-point window on an 8-point
series. -/
theorem moving_average_windows_witness :
    (rollingMean7 [13000, 13130, 12870]).get ⟨1, by simp [rollingMean7]⟩
        = (([13000, 13130, 12870] : List ℚ).take 2).sum / ((2 : ℕ) : ℚ) ∧
      (rollingMean7 [1, 2, 3, 4, 5, 6, 7, 8]).get ⟨7, by simp [rollingMean7]⟩
        = ((([1, 2, 3, 4, 5, 6, 7, 8] : List ℚ).drop 1).take 7).sum / 7 :=
  ⟨((moving_average_windows [13000, 13130, 12870]).2 1 (by simp [rollingMean7])).1
      (by omega),
    ((moving_average_windows [1, 2, 3, 4, 5, 6, 7, 8]).2 7 (by simp [rollingMean7])).2
      (by omega)⟩

/-! ### The y-axis currency formatter (`yfmt` inside `plot_stock_data`)

Python `f"{x:,.0f}"` / `f"{x:,.2f}"` render fixed-point with round-half-even
and comma thousands grouping; the embedding below reproduces that shape over
rationals.
-/

/-- Rounds half to even, as Python float formatting does at ties. -/
def roundHalfEven (q : ℚ) : ℤ :=
  if q - (⌊q⌋ : ℚ) < 1/2 then ⌊q⌋
  else if 1/2 < q - (⌊q⌋ : ℚ) then ⌊q⌋ + 1
  else if Even ⌊q⌋ then ⌊q⌋ else ⌊q⌋ + 1

/-- Inserts `','` after every third digit of a reversed digit list. -/
def group3Aux : List Char → List Char
  | a :: b :: c :: d :: rest => a :: b :: c :: ',' :: group3Aux (d :: rest)
  | l => l

/-- Embeds the `,` thousands grouping of a Python format spec. -/
def group3 (l : List Char) : List Char := (group3Aux l.reverse).reverse

/-- Embeds Python `f"{x:,.pf}"`: fixed-point with `p` fractional digits,
round-half-even, thousands grouping in the integer part, and the sign taken
from `x`. -/
def formatFixed (p : ℕ) (x : ℚ) : String :=
  if p = 0 then
    String.mk ((if x < 0 then ['-'] else [])
      ++ group3 (renderNat (roundHalfEven (x * 10 ^ p)).natAbs))
  else
    String.mk ((if x < 0 then ['-'] else [])
      ++ group3 (renderNat ((roundHalfEven (x * 10 ^ p)).natAbs / 10 ^ p))
      ++ '.' :: padZeros p (natDigits ((roundHalfEven (x * 10 ^ p)).natAbs % 10 ^ p)))

/-- Embeds the y-axis formatter `yfmt` of `plot_stock_data`:
`if abs(x) >= 1000: return f"Rs {x:,.0f}"` and `return f"Rs {x:,.2f}"`
otherwise. -/
def yfmt (x : ℚ) : String :=
  if 1000 ≤ |x| then "Rs " ++ formatFixed 0 x
  else "Rs " ++ formatFixed 2 x

theorem formatFixed_zero (x : ℚ) :
    formatFixed 0 x = String.mk ((if x < 0 then ['-'] else [])
      ++ group3 (renderNat (roundHalfEven (x * 10 ^ 0)).natAbs)) := rfl

theorem formatFixed_two (x : ℚ) :
    formatFixed 2 x = String.mk ((if x < 0 then ['-'] else [])
      ++ group3 (renderNat ((roundHalfEven (x * 10 ^ 2)).natAbs / 10 ^ 2))
      ++ '.' :: padZeros 2 (natDigits ((roundHalfEven (x * 10 ^ 2)).natAbs % 10 ^ 2))) := rfl

theorem roundHalfEven_intCast (n : ℤ) : roundHalfEven (n : ℚ) = n := by
  rw [roundHalfEven, Int.floor_intCast]
  norm_num

theorem mem_group3Aux (c : Char) (l : List Char) :
    c ∈ group3Aux l → c ∈ l ∨ c = ',' := by
  induction l using group3Aux.induct with
  | case1 a b c₁ d rest ih =>
    intro h
    rw [group3Aux] at h
    simp only [List.mem_cons] at h
    rcases h with h | h | h | h | h
    · exact Or.inl (by simp [h])
    · exact Or.inl (by simp [h])
    · exact Or.inl (by simp [h])
    · exact Or.inr h
    · rcases ih h with h₁ | h₁
      · exact Or.inl (by simp [List.mem_cons.mp h₁])
      · exact Or.inr h₁
  | case2 l hshape =>
    intro h
    rw [group3Aux.eq_def] at h
    refine Or.inl ?_
    cases l with
    | nil => simp at h
    | cons a t =>
      cases t with
      | nil => simpa using h
      | cons b t₂ =>
        cases t₂ with
        | nil => simpa using h
        | cons c₂ t₃ =>
          cases t₃ with
          | nil => simpa using h
          | cons d t₄ => exact absurd rfl (hshape a b c₂ d t₄)

theorem mem_group3 {c : Char} {l : List Char} (h : c ∈ group3 l) : c ∈ l ∨ c = ',' := by
  rw [group3, List.mem_reverse] at h
  rcases mem_group3Aux c l.reverse h with h₁ | h₁
  · exact Or.inl (List.mem_reverse.mp h₁)
  · exact Or.inr h₁

/-! ### Claim C9 -/

/-- C9 counterexample.  The code branches on `abs(x) >= 1000`, not on
`x >= 1000`: the value `-2000` is smaller than `1000`, so the claim demands
two decimal places, but the formatter renders it as `Rs -2,000` with no
fractional digits. -/
theorem yfmt_negative_thousands_cex :
    yfmt (-2000) = "Rs -2,000" ∧ (-2000 : ℚ) < 1000 ∧ ¬ '.' ∈ (yfmt (-2000)).data := by
  have h1 : (1000 : ℚ) ≤ |(-2000 : ℚ)| := by
    rw [abs_of_nonpos (by norm_num : (-2000 : ℚ) ≤ 0)]
    norm_num
  have hneg : (-2000 : ℚ) < 0 := by norm_num
  have hr : roundHalfEven ((-2000 : ℚ) * 10 ^ 0) = -2000 := by
    rw [show ((-2000 : ℚ) * 10 ^ 0) = ((-2000 : ℤ) : ℚ) by push_cast; ring]
    exact roundHalfEven_intCast _
  have heq : yfmt (-2000) = "Rs -2,000" := by
    rw [yfmt, if_pos h1, formatFixed_zero, hr, if_pos hneg]
    decide
  refine ⟨heq, by norm_num, ?_⟩
  rw [heq]
  decide

/-- C9 (amended).  The formatter branches on the absolute value: every value
with `|x| ≥ 1000` is rendered with no fractional digits, and every value
with `|x| < 1000` with exactly two digits after the decimal point (the
grouping applies to the integer part in both format specs). -/
theorem yfmt_fraction_digits (x : ℚ) :
    (1000 ≤ |x| → ¬ '.' ∈ (yfmt x).data) ∧
    (|x| < 1000 → ∃ pre d₁ d₂, (yfmt x).data = pre ++ '.' :: [d₁, d₂] ∧
      d₁.isDigit = true ∧ d₂.isDigit = true ∧ ¬ '.' ∈ pre) := by
  have hmk : ∀ l : List Char, (String.mk l).data = l := fun _ => rfl
  have hdot_group : ∀ m, ¬ '.' ∈ group3 (renderNat m) := by
    intro m hmem
    rcases mem_group3 hmem with h | h
    · exact absurd (renderNat_digits m _ h) (by decide)
    · exact absurd h (by decide)
  have hdot_sign : ¬ '.' ∈ (if x < 0 then ['-'] else []) := by
    by_cases hx : x < 0 <;> simp [hx]
  have hdot_rs : ¬ '.' ∈ ("Rs " : String).data := by decide
  constructor
  · intro h
    rw [yfmt, if_pos h, formatFixed_zero]
    intro hmem
    rw [String.data_append, hmk, List.mem_append] at hmem
    rcases hmem with hmem | hmem
    · exact hdot_rs hmem
    · rw [List.mem_append] at hmem
      rcases hmem with hmem | hmem
      · exact hdot_sign hmem
      · exact hdot_group _ hmem
  · intro h
    rw [yfmt, if_neg (not_le.mpr h), formatFixed_two]
    have hmod : (roundHalfEven (x * 10 ^ 2)).natAbs % 10 ^ 2 < 10 ^ 2 :=
      Nat.mod_lt _ (by norm_num)
    have hlen : (padZeros 2 (natDigits ((roundHalfEven (x * 10 ^ 2)).natAbs % 10 ^ 2))).length
        = 2 := padZeros_length (natDigits_length hmod)
    obtain ⟨d₁, d₂, hd⟩ := List.length_eq_two.mp hlen
    refine ⟨("Rs " : String).data ++ ((if x < 0 then ['-'] else [])
      ++ group3 (renderNat ((roundHalfEven (x * 10 ^ 2)).natAbs / 10 ^ 2))), d₁, d₂,
      ?_, ?_, ?_, ?_⟩
    · rw [String.data_append, hmk, hd]
      simp [List.append_assoc]
    · exact padZeros_digits (natDigits_digits _) d₁ (by rw [hd]; simp)
    · exact padZeros_digits (natDigits_digits _) d₂ (by rw [hd]; simp)
    · intro hmem
      rw [List.mem_append] at hmem
      rcases hmem with hmem | hmem
      · exact hdot_rs hmem
      · rw [List.mem_append] at hmem
        rcases hmem with hmem | hmem
        · exact hdot_sign hmem
        · exact hdot_group _ hmem

/-- Witness for `yfmt_fraction_digits` at `2500` (no-fraction branch) and
`12.5` (two-decimals branch). -/
theorem yfmt_fraction_digits_witness :
    ¬ '.' ∈ (yfmt 2500).data ∧
    ∃ pre d₁ d₂, (yfmt (12.5 : ℚ)).data = pre ++ '.' :: [d₁, d₂] ∧
      d₁.isDigit = true ∧ d₂.isDigit = true ∧ ¬ '.' ∈ pre :=
  ⟨(yfmt_fraction_digits 2500).1
      (by rw [abs_of_nonneg (by norm_num : (0 : ℚ) ≤ 2500)]; norm_num),
    (yfmt_fraction_digits (12.5 : ℚ)).2
      (by rw [abs_of_nonneg (by norm_num : (0 : ℚ) ≤ 12.5)]; norm_num)⟩

/-! ### The symbol loader (`main.load_symbols`)

`load_symbols` reads `Stock_Symbols.txt`, extracts every match of
`\*\*([A-Z0-9\-\^]+)\*\*` with `re.findall`, and returns
`sorted(set(symbols))`, falling back to a built-in list when the file is
missing or yields no matches.  The scanner below walks the text as
`re.findall` does: it tries the pattern at each position, emits the capture
and resumes after the match, or advances one character.  The character class
excludes `*`, so the greedy run never backtracks and the scan is
deterministic.  The fuel argument only bounds the recursion: every step
consumes at least one character, and `scanSymbolsAux_congr` shows any fuel
of at least the input length gives the same result.
-/

/-- Character class `[A-Z0-9\-\^]` of the extraction regex. -/
def isSymChar (c : Char) : Bool :=
  ('A' ≤ c && c ≤ 'Z') || ('0' ≤ c && c ≤ '9') || c = '-' || c = '^'

/-- Attempts `\*\*([A-Z0-9\-\^]+)\*\*` at the head of the input: two stars,
a maximal non-empty run of class characters, two stars.  Returns the capture
and the input after the match. -/
def tryMatch (l : List Char) : Option (String × List Char) :=
  match l with
  | c₁ :: c₂ :: rest =>
    if c₁ = '*' ∧ c₂ = '*' then
      if (rest.takeWhile isSymChar).isEmpty then none
      else
        match rest.dropWhile isSymChar with
        | d₁ :: d₂ :: tail =>
          if d₁ = '*' ∧ d₂ = '*' then some (String.mk (rest.takeWhile isSymChar), tail)
          else none
        | _ => none
    else none
  | _ => none

/-- Embeds the `re.findall` scan: try a match at the current position, else
advance one character.  The recursion is written with `Nat.rec` on the fuel
so that every unfolding is definitional. -/
def scanSymbolsAux (fuel : ℕ) : List Char → List String :=
  Nat.rec (motive := fun _ => List Char → List String)
    (fun _ => [])
    (fun _ ih l =>
      match tryMatch l with
      | some pr => pr.1 :: ih pr.2
      | none =>
        match l with
        | [] => []
        | _ :: t => ih t)
    fuel

/-- All regex matches of the text, in scan order. -/
def scanSymbols (l : List Char) : List String := scanSymbolsAux l.length l

/-- Python string comparison: lexicographic on code points; a proper prefix
compares as smaller. -/
def lexLe : List Char → List Char → Bool
  | [], _ => true
  | _ :: _, [] => false
  | a :: as, b :: bs =>
    if a.toNat < b.toNat then true
    else if b.toNat < a.toNat then false
    else lexLe as bs

/-- Order used by Python `sorted` on strings. -/
def strLe (s t : String) : Prop := lexLe s.data t.data = true

instance : DecidableRel strLe :=
  fun s t => inferInstanceAs (Decidable (lexLe s.data t.data = true))

/-- The symbol list before dedup and sort: the regex matches of the file
content when the file exists, and the built-in fallback
`["AAPL", "MSFT", "GOOGL", "AMZN", "TSLA"]` when the file is missing or no
symbol was matched. -/
def rawSymbols (content : Option String) : List String :=
  if (match content with
      | some txt => scanSymbols txt.data
      | none => []) = [] then
    ["AAPL", "MSFT", "GOOGL", "AMZN", "TSLA"]
  else
    match content with
    | some txt => scanSymbols txt.data
    | none => []

/-- Embeds `main.load_symbols`: `content` is the text of
`Stock_Symbols.txt` (`none` when the file is missing); the result is
`sorted(set(symbols))`. -/
def load_symbols (content : Option String) : List String :=
  List.insertionSort strLe (rawSymbols content).dedup

theorem lexLe_total (s t : List Char) : lexLe s t = true ∨ lexLe t s = true := by
  induction s generalizing t with
  | nil => exact Or.inl rfl
  | cons a as ih =>
    cases t with
    | nil => exact Or.inr rfl
    | cons b bs =>
      rcases Nat.lt_trichotomy a.toNat b.toNat with h | h | h
      · exact Or.inl (by simp [lexLe, h])
      · rcases ih bs with h₁ | h₁
        · exact Or.inl (by simp [lexLe, h, h₁])
        · exact Or.inr (by simp [lexLe, h, h₁])
      · exact Or.inr (by simp [lexLe, h])

theorem lexLe_trans : ∀ {s t u : List Char},
    lexLe s t = true → lexLe t u = true → lexLe s u = true
  | [], _, _, _, _ => rfl
  | _ :: _, [], _, h₁, _ => by simp [lexLe] at h₁
  | _ :: _, _ :: _, [], _, h₂ => by simp [lexLe] at h₂
  | a :: as, b :: bs, c :: cs, h₁, h₂ => by
    rw [lexLe] at h₁ h₂ ⊢
    by_cases hab : a.toNat < b.toNat
    · by_cases hbc : b.toNat < c.toNat
      · simp [Nat.lt_trans hab hbc]
      · by_cases hcb : c.toNat < b.toNat
        · simp [hbc, hcb] at h₂
        · have : a.toNat < c.toNat := by omega
          simp [this]
    · by_cases hba : b.toNat < a.toNat
      · simp [hab, hba] at h₁
      · by_cases hbc : b.toNat < c.toNat
        · have : a.toNat < c.toNat := by omega
          simp [this]
        · by_cases hcb : c.toNat < b.toNat
          · simp [hbc, hcb] at h₂
          · have hac : ¬ a.toNat < c.toNat := by omega
            have hca : ¬ c.toNat < a.toNat := by omega
            rw [if_neg hab, if_neg hba] at h₁
            rw [if_neg hbc, if_neg hcb] at h₂
            rw [if_neg hac, if_neg hca]
            exact lexLe_trans h₁ h₂

instance : IsTotal String strLe := ⟨fun s t => lexLe_total s.data t.data⟩

instance : IsTrans String strLe := ⟨fun _ _ _ => lexLe_trans⟩

theorem length_dropWhile_le (p : Char → Bool) (l : List Char) :
    (l.dropWhile p).length ≤ l.length := by
  induction l with
  | nil => simp
  | cons a t ih =>
    rw [List.dropWhile_cons]
    by_cases hp : p a = true
    · simp only [hp, if_true]
      exact le_trans ih (by simp)
    · simp [hp]

theorem tryMatch_some {l : List Char} {s : String} {tail : List Char}
    (h : tryMatch l = some (s, tail)) :
    ∃ c₁ c₂ rest, l = c₁ :: c₂ :: rest ∧ s.data = rest.takeWhile isSymChar ∧
      s.data ≠ [] ∧ tail.length + 4 ≤ l.length := by
  cases l with
  | nil => simp [tryMatch] at h
  | cons c₁ l₁ =>
    cases l₁ with
    | nil => simp [tryMatch] at h
    | cons c₂ rest =>
      rw [tryMatch] at h
      by_cases hstar : c₁ = '*' ∧ c₂ = '*'
      · rw [if_pos hstar] at h
        by_cases hrun : (rest.takeWhile isSymChar).isEmpty
        · rw [if_pos hrun] at h
          exact Option.noConfusion h
        · rw [if_neg hrun] at h
          have hle : (rest.dropWhile isSymChar).length ≤ rest.length :=
            length_dropWhile_le _ _
          cases hdrop : rest.dropWhile isSymChar with
          | nil =>
            rw [hdrop] at h
            exact Option.noConfusion h
          | cons d₁ t₁ =>
            cases t₁ with
            | nil =>
              rw [hdrop] at h
              exact Option.noConfusion h
            | cons d₂ tail₁ =>
              rw [hdrop] at h
              have h₃ : (if d₁ = '*' ∧ d₂ = '*' then
                  some (String.mk (rest.takeWhile isSymChar), tail₁) else none)
                  = some (s, tail) := h
              by_cases hstar₂ : d₁ = '*' ∧ d₂ = '*'
              · rw [if_pos hstar₂, Option.some_inj] at h₃
                injection h₃ with hs ht
                subst hs
                subst ht
                rw [hdrop] at hle
                simp only [List.length_cons] at hle
                refine ⟨c₁, c₂, rest, rfl, rfl, ?_, ?_⟩
                · intro hnil
                  have hnil₂ : List.takeWhile isSymChar rest = [] := hnil
                  rw [hnil₂] at hrun
                  exact hrun rfl
                · simp only [List.length_cons]
                  omega
              · rw [if_neg hstar₂] at h₃
                exact Option.noConfusion h₃
      · rw [if_neg hstar] at h
        exact Option.noConfusion h

theorem scanSymbolsAux_zero (l : List Char) : scanSymbolsAux 0 l = [] := rfl

theorem scanSymbolsAux_succ (fuel : ℕ) (l : List Char) :
    scanSymbolsAux (fuel + 1) l =
      match tryMatch l with
      | some pr => pr.1 :: scanSymbolsAux fuel pr.2
      | none =>
        match l with
        | [] => []
        | _ :: t => scanSymbolsAux fuel t := rfl

theorem scanSymbolsAux_nil (fuel : ℕ) : scanSymbolsAux fuel [] = [] := by
  cases fuel with
  | zero => rfl
  | succ f =>
    rw [scanSymbolsAux_succ]
    rfl

theorem scanSymbolsAux_succ_match {l : List Char} {s₀ : String} {rem : List Char}
    (fuel : ℕ) (htm : tryMatch l = some (s₀, rem)) :
    scanSymbolsAux (fuel + 1) l = s₀ :: scanSymbolsAux fuel rem := by
  rw [scanSymbolsAux_succ, htm]

theorem scanSymbolsAux_succ_skip {c : Char} {t : List Char}
    (fuel : ℕ) (htm : tryMatch (c :: t) = none) :
    scanSymbolsAux (fuel + 1) (c :: t) = scanSymbolsAux fuel t := by
  rw [scanSymbolsAux_succ, htm]

theorem scanSymbolsAux_class {fuel : ℕ} {l : List Char} {s : String}
    (h : s ∈ scanSymbolsAux fuel l) :
    s.data ≠ [] ∧ ∀ c ∈ s.data, isSymChar c = true := by
  induction fuel generalizing l with
  | zero =>
    rw [scanSymbolsAux_zero] at h
    simp at h
  | succ fuel ih =>
    cases htm : tryMatch l with
    | some pr =>
      obtain ⟨s₀, rem⟩ := pr
      rw [scanSymbolsAux_succ_match fuel htm] at h
      rcases List.mem_cons.mp h with rfl | h₁
      · obtain ⟨c₁, c₂, rest, -, hdata, hne, -⟩ := tryMatch_some htm
        refine ⟨hne, ?_⟩
        intro c hc
        rw [hdata] at hc
        exact List.mem_takeWhile_imp hc
      · exact ih h₁
    | none =>
      cases l with
      | nil =>
        rw [scanSymbolsAux_nil] at h
        simp at h
      | cons c t =>
        rw [scanSymbolsAux_succ_skip fuel htm] at h
        exact ih h

/-- The fuel only bounds the recursion: any fuel of at least the input
length yields the same scan, so `scanSymbols` (fuel = input length) is the
full `re.findall` scan. -/
theorem scanSymbolsAux_congr : ∀ {fuel₁ fuel₂ : ℕ} {l : List Char},
    l.length ≤ fuel₁ → l.length ≤ fuel₂ → scanSymbolsAux fuel₁ l = scanSymbolsAux fuel₂ l
  | 0, fuel₂, l, h₁, _ => by
    have hl : l = [] := List.length_eq_zero.mp (by omega)
    subst hl
    rw [scanSymbolsAux_zero, scanSymbolsAux_nil]
  | fuel₁ + 1, 0, l, h₁, h₂ => by
    have hl : l = [] := List.length_eq_zero.mp (by omega)
    subst hl
    rw [scanSymbolsAux_zero, scanSymbolsAux_nil]
  | fuel₁ + 1, fuel₂ + 1, l, h₁, h₂ => by
    cases htm : tryMatch l with
    | some pr =>
      obtain ⟨s₀, rem⟩ := pr
      rw [scanSymbolsAux_succ_match fuel₁ htm, scanSymbolsAux_succ_match fuel₂ htm]
      obtain ⟨c₁, c₂, rest, rfl, -, -, hlen⟩ := tryMatch_some htm
      have hrem : rem.length ≤ fuel₁ := by
        simp only [List.length_cons] at h₁ hlen
        omega
      have hrem₂ : rem.length ≤ fuel₂ := by
        simp only [List.length_cons] at h₂ hlen
        omega
      rw [scanSymbolsAux_congr hrem hrem₂]
    | none =>
      cases l with
      | nil => rw [scanSymbolsAux_nil, scanSymbolsAux_nil]
      | cons c t =>
        rw [scanSymbolsAux_succ_skip fuel₁ htm, scanSymbolsAux_succ_skip fuel₂ htm]
        have ht : t.length ≤ fuel₁ := by
          simp only [List.length_cons] at h₁
          omega
        have ht₂ : t.length ≤ fuel₂ := by
          simp only [List.length_cons] at h₂
          omega
        exact scanSymbolsAux_congr ht ht₂

/-! ### Claim C8 -/

/-- C8 (confirmed).  `load_symbols` returns the deduplicated list of every
maximal `\*\*([A-Z0-9\-\^]+)\*\*` match, sorted in Python's lexicographic
string order; every match is a non-empty run of class characters (so
lowercase tokens are never matched); and when the file is missing — or
scanning yields no match — the sorted built-in fallback
`[AAPL, AMZN, GOOGL, MSFT, TSLA]` is returned.  The last conjunct is the
spec's seed case S1, where lowercase `**aapl**` is skipped. -/
theorem load_symbols_sorted_dedup_fallback (content : Option String) :
    (load_symbols content).Sorted strLe ∧
    (load_symbols content).Nodup ∧
    (∀ s, s ∈ load_symbols content ↔ s ∈ rawSymbols content) ∧
    (∀ t s, content = some t → s ∈ scanSymbols t.data →
      s.data ≠ [] ∧ ∀ c ∈ s.data, isSymChar c = true) ∧
    (content = none → load_symbols content = ["AAPL", "AMZN", "GOOGL", "MSFT", "TSLA"]) ∧
    load_symbols (some "foo **AAPL** bar **MSFT** **aapl** **GOOG-X**")
      = ["AAPL", "GOOG-X", "MSFT"] := by
  refine ⟨List.sorted_insertionSort _ _, ?_, ?_, ?_, ?_, ?_⟩
  · exact ((List.perm_insertionSort _ _).nodup_iff).mpr ((rawSymbols content).nodup_dedup)
  · intro s
    rw [load_symbols, (List.perm_insertionSort _ _).mem_iff, List.mem_dedup]
  · rintro t s rfl hmem
    exact scanSymbolsAux_class hmem
  · rintro rfl
    decide
  · decide

/-- Witness for `load_symbols_sorted_dedup_fallback`: the missing-file
fallback (spec seed case S2) and a membership instance on the S1 text. -/
theorem load_symbols_witness :
    load_symbols none = ["AAPL", "AMZN", "GOOGL", "MSFT", "TSLA"] ∧
    ("AAPL" ∈ load_symbols (some "foo **AAPL** bar **MSFT** **aapl** **GOOG-X**") ↔
      "AAPL" ∈ rawSymbols (some "foo **AAPL** bar **MSFT** **aapl** **GOOG-X**")) :=
  ⟨(load_symbols_sorted_dedup_fallback none).2.2.2.2.1 rfl,
    (load_symbols_sorted_dedup_fallback
      (some "foo **AAPL** bar **MSFT** **aapl** **GOOG-X**")).2.2.1 "AAPL"⟩
